import Mathlib

/-!
# Verification of the david WebDAV access-control layer

Shallow embedding of the core of the `app` package (security.go, crud.go,
fs.go, config.go) of the david WebDAV server, together with proofs about
path resolution, permission parsing, authentication, the authorization
gates and configuration hot reload.

Modelling conventions:

* The code is modelled for a unix (Linux) host: `filepath.Separator` is
  `'/'` and `filepath.FromSlash` is the identity, as in the deployment
  target of the repository (Docker/Linux).
* Go strings are Lean `String` values; where the Go `len` counts UTF-8 bytes we
  use an explicit byte-count function `goLen`.
* The Go functions `path.Clean` and `filepath.Clean` (identical on unix) are modelled
  segment-wise by `cleanChars`, and `filepath.Join` by `goJoin`, following
  the documented lazybuf algorithm of the Go standard library.
* `map[string]*UserInfo` is modelled as an association list
  `List (String × UserInfo)`; a nil pointer value is identified with an
  absent key (every access in the source guards or dereferences the
  pointer, never distinguishes the two).
* External effects (bcrypt comparison, `os.Stat`, `os.OpenFile`,
  `os.RemoveAll`, `os.Rename`) are parameterised by oracles.
* A Go nil-pointer dereference is modelled by an explicit `panics`
  constructor of the corresponding outcome type.
-/

namespace David

/-! ## Path model: splitting on '/' -/

/-- Split a character list on `'/'`, keeping empty pieces
(the segment view of a slash path). -/
def splitSlash : List Char → List (List Char)
  | [] => [[]]
  | c :: rest =>
    match splitSlash rest with
    | [] => [[]]
    | s :: ss => if c = '/' then [] :: s :: ss else (c :: s) :: ss

/-- Join segments with `'/'` between them (inverse of `splitSlash`). -/
def joinSegs : List (List Char) → List Char
  | [] => []
  | [s] => s
  | s :: t :: ss => s ++ '/' :: joinSegs (t :: ss)

/-- Whether a path begins with `'/'` (an absolute/rooted path). -/
def isRooted : List Char → Bool
  | '/' :: _ => true
  | _ => false

/-- One step of the Go `path.Clean` over the output stack (most recent
segment first): empty and `"."` segments are dropped, `".."` pops a
previous segment when possible (kept for relative paths, dropped at the
root of rooted paths), anything else is pushed. -/
def cleanStep (rooted : Bool) (out : List (List Char)) (seg : List Char) : List (List Char) :=
  if seg = [] ∨ seg = ['.'] then out
  else if seg = ['.', '.'] then
    match out with
    | [] => if rooted then [] else [['.', '.']]
    | top :: rest => if top = ['.', '.'] then seg :: top :: rest else rest
  else seg :: out

/-- The canonical segment list of a path, in path order. -/
def cleanSegs (rooted : Bool) (segs : List (List Char)) : List (List Char) :=
  (segs.foldl (cleanStep rooted) []).reverse

/-- The Go `path.Clean` (= `filepath.Clean` on unix). -/
def cleanChars (cs : List Char) : List Char :=
  let rooted := isRooted cs
  match cleanSegs rooted (splitSlash cs) with
  | [] => if rooted then ['/'] else ['.']
  | out => (if rooted then ['/'] else []) ++ joinSegs out

/-- The Go `filepath.Join` on unix: skip leading empty elements, join the
rest (including any later empty elements) with `'/'`, then `Clean`;
all-empty input yields the empty string. -/
def goJoin : List (List Char) → List Char
  | [] => []
  | e :: rest => if e = [] then goJoin rest else cleanChars (joinSegs (e :: rest))

/-- The canonical segment list of the characters of a path string. -/
def pathSegs (cs : List Char) : List (List Char) :=
  cleanSegs (isRooted cs) (splitSlash cs)

/-- `p` is lexically inside `root`: both are absolute or both relative,
and the canonical segments of `root` are a prefix of those of `p`. -/
def insideOf (root p : String) : Prop :=
  isRooted root.data = isRooted p.data ∧ pathSegs root.data <+: pathSegs p.data

/-! ## Data model (config.go, crud.go, security.go) -/

/-- crud.go: the `CrudType` struct. -/
@[ext]
structure CrudType where
  crud : String
  create : Bool
  read : Bool
  update : Bool
  delete : Bool
deriving DecidableEq, Repr

/-- config.go: the `UserInfo` struct. `subdir` and the permission object
are pointers in Go; `none` models a nil pointer. -/
@[ext]
structure UserInfo where
  password : String
  subdir : Option String
  permissions : String
  crud : Option CrudType
deriving DecidableEq, Repr

/-- config.go: the `Logging` struct. -/
@[ext]
structure Logging where
  error : Bool
  create : Bool
  read : Bool
  update : Bool
  delete : Bool
deriving DecidableEq, Repr

/-- config.go: the `Cors` struct. -/
structure Cors where
  origin : String
  credentials : Bool
deriving DecidableEq, Repr

/-- config.go: the `Config` struct (fields not consulted by the modelled
functions — address, port, prefix, TLS — are omitted).
`users` models `map[string]*UserInfo`. -/
@[ext]
structure Config where
  dir : String
  realm : String
  users : List (String × UserInfo)
  log : Logging
  cors : Cors
deriving DecidableEq, Repr

/-- Lookup in the user map (`cfg.Users[name]`); `none` is the Go nil. -/
def lookupUsers (us : List (String × UserInfo)) (k : String) : Option UserInfo :=
  (us.find? (fun p => p.1 = k)).map Prod.snd

/-- In-place mutation of one user record through the map
(`cfg.Users[name] = v` on an existing key). -/
def setUser (us : List (String × UserInfo)) (k : String) (v : UserInfo) :
    List (String × UserInfo) :=
  us.map (fun p => if p.1 = k then (p.1, v) else p)

/-- security.go: the `AuthInfo` struct; `crudType` is a `*CrudType`. -/
structure AuthInfo where
  username : String
  authenticated : Bool
  crudType : Option CrudType
deriving DecidableEq, Repr

/-- config.go: `AuthenticationNeeded` — users are defined and non-empty. -/
def authenticationNeeded (cfg : Config) : Bool :=
  ¬cfg.users.isEmpty

/-! ## Path resolution (security.go `Resolve`) -/

/-- `filepath.Separator` on the unix target. -/
def pathSeparator : Char := '/'

/-- The NUL character rejected by `Resolve`. -/
def nullChar : Char := Char.ofNat 0

/-- security.go `Resolve`: reject separators other than '/' (vacuous on
unix) and NUL bytes, then join the base dir, the configured subdir of an
authenticated caller if any, and the virtual path canonicalised as if rooted
at "/". The context argument is the `AuthInfo` stored in it (or `none`). -/
def Resolve (ai : Option AuthInfo) (name : String) (cfg : Config) : String :=
  if (pathSeparator != '/' && name.data.contains pathSeparator)
      || name.data.contains nullChar then ""
  else
    let dir := if cfg.dir = "" then "." else cfg.dir
    match ai with
    | some info =>
      if info.authenticated then
        match lookupUsers cfg.users info.username with
        | some ui =>
          match ui.subdir with
          | some sd => String.mk (goJoin [dir.data, sd.data, cleanChars ('/' :: name.data)])
          | none => String.mk (goJoin [dir.data, cleanChars ('/' :: name.data)])
        | none => String.mk (goJoin [dir.data, cleanChars ('/' :: name.data)])
      else String.mk (goJoin [dir.data, cleanChars ('/' :: name.data)])
    | none => String.mk (goJoin [dir.data, cleanChars ('/' :: name.data)])

/-- The physical root of the jail of the caller: `baseDir`, or
`baseDir/jailSubdir` for an authenticated caller with a configured
subdirectory (mirrors the branch structure of `Resolve`). -/
def jailRoot (ai : Option AuthInfo) (cfg : Config) : String :=
  let dir := if cfg.dir = "" then "." else cfg.dir
  match ai with
  | some info =>
    if info.authenticated then
      match lookupUsers cfg.users info.username with
      | some ui =>
        match ui.subdir with
        | some sd => String.mk (goJoin [dir.data, sd.data])
        | none => String.mk (cleanChars dir.data)
      | none => String.mk (cleanChars dir.data)
    else String.mk (cleanChars dir.data)
  | none => String.mk (cleanChars dir.data)

/-! ## Permission parsing (crud.go `FormatCrud`) -/

/-- Number of UTF-8 bytes of one character (Go `len` counts bytes). -/
def charBytes (c : Char) : Nat :=
  if c.toNat ≤ 0x7F then 1 else if c.toNat ≤ 0x7FF then 2 else if c.toNat ≤ 0xFFFF then 3 else 4

/-- The Go `len` on a string: its UTF-8 byte count. -/
def goLen (s : String) : Nat := (s.data.map charBytes).sum

/-- ASCII lowercasing of one character. The Go `strings.ToLower` acts on
full Unicode, but agrees with this on the ASCII range, which is the only
range that can influence the parsed CRUD flags. -/
def goToLower (c : Char) : Char :=
  if h : 65 ≤ c.toNat ∧ c.toNat ≤ 90 then Char.ofNatAux (c.toNat + 32) (Or.inl (by omega))
  else c

/-- `strings.ToLower` (restricted to its ASCII action, see `goToLower`). -/
def lowerStr (s : String) : String := String.mk (s.data.map goToLower)

/-- The character scan of `FormatCrud`: walk the (lowercased) permission
string and switch each of the four flags on when its letter occurs,
silently ignoring every other character. -/
def scanFlags : List Char → Bool → Bool → Bool → Bool → Bool × Bool × Bool × Bool
  | [], c, r, u, d => (c, r, u, d)
  | ch :: rest, c, r, u, d =>
    if ch = 'c' then scanFlags rest true r u d
    else if ch = 'r' then scanFlags rest c true u d
    else if ch = 'u' then scanFlags rest c r true d
    else if ch = 'd' then scanFlags rest c r u true
    else scanFlags rest c r u d

/-- The effect of crud.go `FormatCrud` on one `CrudType` record: reject a
byte length outside 1..4 (forcing all four flags false, leaving the raw
string untouched), otherwise lowercase the raw string and recompute the
four flags from it. Returns the updated record and the error, if any. -/
def formatCrudCT (ct : CrudType) : CrudType × Option String :=
  if goLen ct.crud < 1 ∨ goLen ct.crud > 4 then
    ({ ct with create := false, read := false, update := false, delete := false },
     some "invalid CRUD type string: length must be between 1 and 4")
  else
    let lowered := lowerStr ct.crud
    let f := scanFlags lowered.data false false false false
    ({ crud := lowered, create := f.1, read := f.2.1, update := f.2.2.1, delete := f.2.2.2 },
     none)

/-- crud.go `FormatCrud`: validate and normalise the CRUD record of the
named user inside the configuration (mutating it in place), failing when the
user or its record is missing. Note that on a length failure the flags
are still cleared in the stored record. -/
def FormatCrud (name : String) (cfg : Config) : Config × Option String :=
  match lookupUsers cfg.users name with
  | some ui =>
    match ui.crud with
    | some ct =>
      let r := formatCrudCT ct
      ({ cfg with users := setUser cfg.users name { ui with crud := some r.1 } }, r.2)
    | none =>
      (cfg, some "either user was not found in config file, or crud was not found in config file")
  | none =>
    (cfg, some "either user was not found in config file, or crud was not found in config file")

/-! ## Authentication (security.go `authenticate`) -/

/-- security.go: the package-level `testCrudType` value. -/
def testCrudType : CrudType := ⟨"", false, false, false, false⟩

/-- Result of `authenticate`: either a Go nil-pointer dereference
(`panics`) or an `AuthInfo` together with the returned error. -/
inductive AuthResult where
  | panics
  | ok (info : AuthInfo) (err : Option String)
deriving DecidableEq, Repr

/-- security.go `authenticate`. `verify hash password` models
`bcrypt.CompareHashAndPassword` succeeding. The `panics` case is the
dereference `cfg.Users[username].Crud` on line 64 of security.go, which
runs before the `user == nil` check on line 66: an unknown username hits
a nil-pointer dereference rather than the "user not found" return. -/
def authenticate (verify : String → String → Bool) (cfg : Config)
    (username password : String) : AuthResult :=
  if ¬authenticationNeeded cfg then
    .ok ⟨"", false, some testCrudType⟩ none
  else if username = "" ∨ password = "" then
    .ok ⟨username, false, some testCrudType⟩ (some "username not found or password empty")
  else
    match lookupUsers cfg.users username with
    | none => .panics
    | some user =>
      if verify user.password password then .ok ⟨username, true, user.crud⟩ none
      else .ok ⟨username, false, some testCrudType⟩ (some "Password doesn\x27t match")

/-! ## Virtual filesystem operations (fs.go) -/

/-- fs.go `Dir.resolveUser`: the username when authenticated, else "". -/
def resolveUser (ai : Option AuthInfo) : String :=
  match ai with
  | some info => if info.authenticated then info.username else ""
  | none => ""

/-- fs.go `Dir.authorizationFromContext`: identify the user from the
context and re-run `FormatCrud` on their record (which mutates the
configuration). Returns the updated configuration and the error. -/
def authorizationFromContext (ai : Option AuthInfo) (cfg : Config) : Config × Option String :=
  let user := resolveUser ai
  if user = "" then (cfg, some "no user identified")
  else FormatCrud user cfg

/-- The double dereference `cfg.Users[user].Crud`; `none` means the Go
code would dereference a nil pointer. -/
def derefCrud (cfg : Config) (user : String) : Option CrudType :=
  match lookupUsers cfg.users user with
  | some ui => ui.crud
  | none => none

/-- Result of the `os.Stat` call inside an operation. -/
inductive StatRes where
  | found
  | errNotExist
  | errOther
deriving DecidableEq, Repr

/-- Oracle for the physical filesystem calls an operation may make. -/
structure OsOracle where
  stat : StatRes
  openErr : Option String
  removeErr : Option String
  renameErr : Option String
deriving DecidableEq, Repr

/-- `os.O_RDONLY` on Linux. -/
def O_RDONLY : Nat := 0
/-- `os.O_WRONLY` on Linux. -/
def O_WRONLY : Nat := 1
/-- `os.O_RDWR` on Linux. -/
def O_RDWR : Nat := 2

/-- Result of `Dir.OpenFile`: the returned `(webdav.File, error)` pair
(the file represented by its physical path), or a nil dereference. -/
inductive OpenOutcome where
  | ret (file : Option String) (err : Option String)
  | panics
deriving DecidableEq, Repr

/-- fs.go `Dir.OpenFile`. Mirrors the source order: resolve, authorize
(re-parsing the CRUD record of the user), the existence pre-check that returns
a hard error when the target is missing and create-logging is disabled,
the read check (vacuously triggered by any flag since `O_RDONLY = 0`),
the soft denial `(nil, nil)` for write flags without create permission
(whose inner `else` branch in the source is dead code), and finally the
physical open. -/
def OpenFile (os : OsOracle) (cfg : Config) (ai : Option AuthInfo)
    (name : String) (flag : Nat) : OpenOutcome :=
  let rname := Resolve ai name cfg
  if rname = "" then .ret none (some "file does not exist")
  else
    let ac := authorizationFromContext ai cfg
    match ac.2 with
    | some e => .ret none (some e)
    | none =>
      let user := resolveUser ai
      if os.stat = .errNotExist ∧ ac.1.log.create = false then
        .ret none (some ("the file: " ++ rname ++ " does not exist and user " ++ user ++
          " has no write permission to create it"))
      else
        match derefCrud ac.1 user with
        | none => .panics
        | some ct =>
          if flag &&& O_RDONLY = 0 ∧ ct.read = false then
            .ret none (some "unauthorized to read file")
          else if flag &&& (O_WRONLY ||| O_RDWR) ≠ 0 ∧ ct.create = false then
            .ret none none
          else
            match os.openErr with
            | some e => .ret none (some e)
            | none => .ret (some rname) none

/-- Result of `Dir.RemoveAll` / `Dir.Rename`: `acted` records whether the
physical `os.RemoveAll` / `os.Rename` call was reached. -/
inductive FsOutcome where
  | ret (acted : Bool) (err : Option String)
  | panics
deriving DecidableEq, Repr

/-- fs.go `Dir.RemoveAll`. The root guard compares the resolved path with
`filepath.Clean(cfg.Dir)` only — not with the own root of a jailed user. -/
def RemoveAll (os : OsOracle) (cfg : Config) (ai : Option AuthInfo) (name : String) : FsOutcome :=
  let rname := Resolve ai name cfg
  if rname = "" then .ret false (some "file does not exist")
  else if rname = String.mk (cleanChars cfg.dir.data) then
    .ret false (some "removing the virtual root directory is prohibited")
  else
    let ac := authorizationFromContext ai cfg
    match ac.2 with
    | some e => .ret false (some e)
    | none =>
      match derefCrud ac.1 (resolveUser ai) with
      | none => .panics
      | some ct =>
        if ct.delete = false then .ret false (some "unauthorized to delete file or directory")
        else
          match os.removeErr with
          | some e => .ret true (some e)
          | none => .ret true none

/-- fs.go `Dir.Rename`. As in `RemoveAll`, the root guard only compares
both endpoints with `filepath.Clean(cfg.Dir)`. -/
def Rename (os : OsOracle) (cfg : Config) (ai : Option AuthInfo)
    (oldName newName : String) : FsOutcome :=
  let ro := Resolve ai oldName cfg
  if ro = "" then .ret false (some "file does not exist")
  else
    let rn := Resolve ai newName cfg
    if rn = "" then .ret false (some "file does not exist")
    else if String.mk (cleanChars cfg.dir.data) = ro ∨ String.mk (cleanChars cfg.dir.data) = rn then
      .ret false (some "invalid argument")
    else
      let ac := authorizationFromContext ai cfg
      match ac.2 with
      | some e => .ret false (some e)
      | none =>
        match derefCrud ac.1 (resolveUser ai) with
        | none => .panics
        | some ct =>
          if ct.update = false then .ret false (some "unauthorized to rename file or directory")
          else
            match os.renameErr with
            | some e => .ret true (some e)
            | none => .ret true none

/-! ## The protocol-method gate and request pipeline (security.go) -/

/-- Return value of `handleHeadersForAuthorization` plus the HTTP status
it wrote to the response, if any. For GET the source writes a body before
calling `WriteHeader(405)`; we record the status passed to `WriteHeader`. -/
structure GateResult where
  err : Option String
  ok : Bool
  status : Option Nat
deriving DecidableEq, Repr

/-- Gate result or a nil-pointer dereference. -/
inductive GateOutcome where
  | res (g : GateResult)
  | panics
deriving DecidableEq, Repr

/-- security.go `handleHeadersForAuthorization`. The switch dispatches on
the method string; `POST` and `HEAD` fall through the switch to the
trailing `WriteHeader(StatusNotImplemented)` with a non-nil error and
`ok = false`; an unrecognised method takes the `default` case, returning
a non-nil error with `ok = true` and writing no status. The `MKOL`
constant is the literal string in the source (not the WebDAV `MKCOL`). -/
def handleHeadersForAuthorization (cfg : Config) (ai : AuthInfo) (method : String)
    (stat : StatRes) : GateOutcome :=
  if method = "GET" then .res ⟨none, false, some 405⟩
  else if method = "PUT" then
    match derefCrud cfg ai.username with
    | none => .panics
    | some ct =>
      if ct.create = false then .res ⟨none, false, some 403⟩ else .res ⟨none, true, none⟩
  else if method = "POST" then .res ⟨some "no single method was received", false, some 501⟩
  else if method = "DELETE" then
    match derefCrud cfg ai.username with
    | none => .panics
    | some ct =>
      if ct.delete = false then .res ⟨none, false, some 403⟩ else .res ⟨none, true, none⟩
  else if method = "HEAD" then .res ⟨some "no single method was received", false, some 501⟩
  else if method = "OPTIONS" then .res ⟨none, false, some 200⟩
  else if method = "PROPFIND" then
    match ai.crudType, derefCrud cfg ai.username with
    | none, _ => .panics
    | _, none => .panics
    | some _, some ct =>
      if ct.read = false then .res ⟨none, false, some 401⟩
      else if ct.create = false ∨ ct.update = false then
        if stat = .errNotExist then .res ⟨none, false, none⟩
        else .res ⟨none, true, none⟩
      else .res ⟨none, true, none⟩
  else if method = "MKOL" then
    match derefCrud cfg ai.username with
    | none => .panics
    | some ct =>
      if ct.create = false then .res ⟨none, false, some 401⟩ else .res ⟨none, true, none⟩
  else if method = "MOVE" then
    match derefCrud cfg ai.username with
    | none => .panics
    | some ct =>
      if ct.update = false then .res ⟨none, false, some 401⟩ else .res ⟨none, true, none⟩
  else if method = "LOCK" then
    match derefCrud cfg ai.username with
    | none => .panics
    | some ct =>
      if ct.create = false then .res ⟨none, false, some 401⟩ else .res ⟨none, true, none⟩
  else if method = "UNLOCK" then
    match derefCrud cfg ai.username with
    | none => .panics
    | some ct =>
      if ct.create = false then .res ⟨none, false, some 401⟩ else .res ⟨none, true, none⟩
  else if method = "PROPPATCH" then .res ⟨none, true, none⟩
  else .res ⟨some "This method condition hasn\x27t been handled yet", true, none⟩

/-- An inbound request, reduced to the fields `handle` consults. -/
structure Request where
  method : String
  origin : String
  acrMethod : String
  acrHeaders : String
  basicAuthOk : Bool
  username : String
  password : String
deriving DecidableEq, Repr

/-- Outcome of `handle`: CORS preflight 204, the 401 of
`SayUnauthorized`, an early return after the gate, or delegation to the
webdav protocol engine (`a.Handler.ServeHTTP`), carrying the gate result
when the gate ran. -/
inductive HandleOutcome where
  | noContent
  | unauthorized
  | gateStop (g : GateResult)
  | delegated (g : Option GateResult)
  | panics
deriving DecidableEq, Repr

/-- security.go `handle`. After the gate, the source returns early only
when `err == nil && !ok`; a non-nil gate error is merely logged and the
request is still delegated to the protocol engine. -/
def handle (verify : String → String → Bool) (stat : StatRes) (cfg : Config)
    (req : Request) : HandleOutcome :=
  if req.method = "OPTIONS" ∧ cfg.cors.origin = req.origin ∧
      req.acrMethod ≠ "" ∧ req.acrHeaders ≠ "" then
    .noContent
  else if ¬authenticationNeeded cfg then .delegated none
  else if ¬req.basicAuthOk then .unauthorized
  else
    match authenticate verify cfg req.username req.password with
    | .panics => .panics
    | .ok info _err =>
      if info.authenticated = false then .unauthorized
      else
        match info.crudType with
        | none => .panics
        | some ct =>
          if ct.read = false then .unauthorized
          else
            match handleHeadersForAuthorization cfg info req.method stat with
            | .panics => .panics
            | .res g => if g.err = none ∧ g.ok = false then .gateStop g else .delegated (some g)

/-! ## Configuration hot reload (config.go `updateConfig`) -/

/-- Go pointer inequality between a pointer held in the live
configuration and one produced by the fresh `viper.Unmarshal` of the
reloaded file: two such pointers can only be equal when both are nil,
since the fresh unmarshal allocates new objects. -/
def ptrNe {α : Type} (oldv newv : Option α) : Bool :=
  !(oldv.isNone && newv.isNone)

/-- The in-place update `updateConfig` performs on one retained user:
password and subdir are overwritten when the comparison fires (a string
comparison for the password, a pointer comparison for the subdir), and
when the crud pointers differ the `Crud` of the record is replaced by a fresh
`CrudType` built from the *updated* permission string and re-parsed by
`FormatCrud` (a parse failure leaves the fresh record with all flags
false; the error is only logged). The `Permissions` field itself is
never touched for retained users. -/
def mergeUser (old new_ : UserInfo) : UserInfo :=
  let u1 := if old.password ≠ new_.password then { old with password := new_.password } else old
  let u2 := if ptrNe u1.subdir new_.subdir then { u1 with subdir := new_.subdir } else u1
  if ptrNe u2.crud new_.crud then
    { u2 with crud := some (formatCrudCT ⟨new_.permissions, false, false, false, false⟩).1 }
  else u2

/-- One iteration of the second loop of `updateConfig`: insert the
updated record when the username is new, otherwise merge it into the
live record. -/
def applyUserChange (acc : List (String × UserInfo)) (p : String × UserInfo) :
    List (String × UserInfo) :=
  match lookupUsers acc p.1 with
  | none => acc ++ [p]
  | some old => setUser acc p.1 (mergeUser old p.2)

/-- config.go `updateConfig`: first loop deletes every live user absent
from the update (range-and-delete over a Go map denotes a filter, each
iteration deciding one key independently); second loop walks the updated
users, inserting new records as-is and merging retained ones; finally the
four CRUD logging toggles are overwritten field-by-field when changed
(`Log.Error` is not touched). The directory-creation side effect is not
modelled. -/
def updateConfig (cfg updatedCfg : Config) : Config :=
  let kept := cfg.users.filter (fun p => (lookupUsers updatedCfg.users p.1).isSome)
  let merged := updatedCfg.users.foldl applyUserChange kept
  let lg0 := cfg.log
  let lg1 := if lg0.create ≠ updatedCfg.log.create then
    { lg0 with create := updatedCfg.log.create } else lg0
  let lg2 := if lg1.read ≠ updatedCfg.log.read then
    { lg1 with read := updatedCfg.log.read } else lg1
  let lg3 := if lg2.update ≠ updatedCfg.log.update then
    { lg2 with update := updatedCfg.log.update } else lg2
  let lg4 := if lg3.delete ≠ updatedCfg.log.delete then
    { lg3 with delete := updatedCfg.log.delete } else lg3
  { cfg with users := merged, log := lg4 }

/-- The pointwise denotation of the two user loops of `updateConfig`:
what the merged map holds at one username, as a function of the live and
updated entries for that username alone. -/
def mergeLookup (cfg updatedCfg : Config) (u : String) : Option UserInfo :=
  match lookupUsers updatedCfg.users u with
  | none => none
  | some nu =>
    match lookupUsers cfg.users u with
    | none => some nu
    | some ou => some (mergeUser ou nu)

/-- The methods handled by the switch of `handleHeadersForAuthorization`
(note `MKOL`, the literal in the source, instead of the WebDAV `MKCOL`). -/
def handledMethods : List String :=
  ["GET", "PUT", "POST", "DELETE", "HEAD", "OPTIONS", "PROPFIND",
   "MKOL", "MOVE", "LOCK", "UNLOCK", "PROPPATCH"]

/-! ## Auxiliary predicates for the path proofs -/

/-- A plain path segment: nonempty, not `"."`, not `".."`, slash-free. -/
def plainSeg (s : List Char) : Prop :=
  s ≠ [] ∧ s ≠ ['.'] ∧ s ≠ ['.', '.'] ∧ '/' ∉ s

/-- Invariant of the `cleanStep` output stack (most recent first): plain
segments followed by the kept `".."` segments, the latter absent for
rooted paths. -/
def goodStack (rooted : Bool) (st : List (List Char)) : Prop :=
  ∃ ps ds, st = ps ++ ds ∧ (∀ s ∈ ps, plainSeg s) ∧ (∀ s ∈ ds, s = ['.', '.']) ∧
    (rooted = true → ds = [])

/-! ## Concrete fixtures used by witnesses and counterexamples -/

/-- A full-permission CRUD record, as parsed from `"crud"`. -/
def crudAll : CrudType := ⟨"crud", true, true, true, true⟩

/-- A read-only CRUD record, as parsed from `"r"`. -/
def crudRead : CrudType := ⟨"r", false, true, false, false⟩

/-- A CRUD record without read, as parsed from `"cud"`. -/
def crudCUD : CrudType := ⟨"cud", true, false, true, true⟩

/-- Logging with only error logging on (the default). -/
def logQuiet : Logging := ⟨true, false, false, false, false⟩

/-- Wildcard CORS. -/
def corsAny : Cors := ⟨"*", false⟩

/-- An unjailed full-permission user. -/
def userFoo : UserInfo := ⟨"secret", none, "crud", some crudAll⟩

/-- A configuration with the single unjailed user `"foo"`. -/
def cfgFoo : Config := ⟨"/tmp", "david", [("foo", userFoo)], logQuiet, corsAny⟩

/-- A user jailed to subdirectory `"lj"` with full permissions. -/
def userLJ : UserInfo := ⟨"secret", some "lj", "crud", some crudAll⟩

/-- A configuration with the single jailed user `"lj"`. -/
def cfgJail : Config := ⟨"/tmp", "david", [("lj", userLJ)], logQuiet, corsAny⟩

/-- The authentication record of `"lj"` after a successful login. -/
def aiLJ : AuthInfo := ⟨"lj", true, some crudAll⟩

/-- An unjailed read-only user. -/
def userR : UserInfo := ⟨"secret", none, "r", some crudRead⟩

/-- A configuration with the single read-only user `"u"`. -/
def cfgR : Config := ⟨"/tmp", "david", [("u", userR)], logQuiet, corsAny⟩

/-- The authentication record of `"u"` after a successful login. -/
def aiR : AuthInfo := ⟨"u", true, some crudRead⟩

/-- An unjailed user with permissions `"cud"` (no read). -/
def userCUD : UserInfo := ⟨"secret", none, "cud", some crudCUD⟩

/-- A configuration with the single user `"w"` lacking read. -/
def cfgCUD : Config := ⟨"/tmp", "david", [("w", userCUD)], logQuiet, corsAny⟩

/-- A configuration with no users (authentication bypass mode). -/
def cfgNoUsers : Config := ⟨"/tmp", "david", [], logQuiet, corsAny⟩

/-- Oracle: target exists, all physical calls succeed. -/
def osAllOk : OsOracle := ⟨.found, none, none, none⟩

/-- Oracle: target does not exist, all physical calls succeed. -/
def osMissing : OsOracle := ⟨.errNotExist, none, none, none⟩

/-- A bcrypt oracle for fixtures: the stored "hash" is the password. -/
def eqVerify : String → String → Bool := fun stored given => stored == given

/-- A second live user for the reload fixtures. -/
def userBob : UserInfo := ⟨"bobsecret", none, "crud", some crudAll⟩

/-- Live configuration before a reload: users `"alice"` and `"bob"`. -/
def cfgLive : Config :=
  ⟨"/tmp", "david", [("alice", userFoo), ("bob", userBob)], logQuiet, corsAny⟩

/-- A reloaded configuration (fresh unmarshal, `crud` pointers nil) in
which exactly the permission string of `"alice"` is malformed (length 6). -/
def cfgBadReload : Config :=
  ⟨"/tmp", "david",
   [("alice", ⟨"secret", none, "cruddy", none⟩), ("bob", ⟨"bobsecret", none, "crud", none⟩)],
   logQuiet, corsAny⟩

/-- A reloaded configuration that removes `"bob"` and keeps `"alice"`. -/
def cfgDropBob : Config :=
  ⟨"/tmp", "david", [("alice", ⟨"secret", none, "crud", none⟩)], logQuiet, corsAny⟩

/-! ## Theorems -/

lemma toNat_goToLower_of (c : Char) (h : 65 ≤ c.toNat ∧ c.toNat ≤ 90) :
    (goToLower c).toNat = c.toNat + 32 := by
  unfold goToLower
  rw [dif_pos h]
  rfl

lemma goToLower_of_not (c : Char) (h : ¬(65 ≤ c.toNat ∧ c.toNat ≤ 90)) :
    goToLower c = c := by
  unfold goToLower
  rw [dif_neg h]

lemma charBytes_goToLower (c : Char) : charBytes (goToLower c) = charBytes c := by
  by_cases h : 65 ≤ c.toNat ∧ c.toNat ≤ 90
  · unfold charBytes
    rw [toNat_goToLower_of c h, if_pos (by omega), if_pos (by omega)]
  · rw [goToLower_of_not c h]

lemma goToLower_goToLower (c : Char) : goToLower (goToLower c) = goToLower c := by
  by_cases h : 65 ≤ c.toNat ∧ c.toNat ≤ 90
  · apply goToLower_of_not
    rw [toNat_goToLower_of c h]
    omega
  · rw [goToLower_of_not c h, goToLower_of_not c h]

lemma lowerStr_lowerStr (s : String) : lowerStr (lowerStr s) = lowerStr s := by
  simp only [lowerStr]
  congr 1
  rw [List.map_map]
  exact List.map_congr_left (fun a _ => goToLower_goToLower a)

lemma goLen_lowerStr (s : String) : goLen (lowerStr s) = goLen s := by
  simp only [goLen, lowerStr]
  rw [List.map_map]
  congr 1
  exact List.map_congr_left (fun a _ => charBytes_goToLower a)

lemma scanFlags_spec (l : List Char) (c r u d : Bool) :
    scanFlags l c r u d =
      (c || l.contains 'c', r || l.contains 'r', u || l.contains 'u', d || l.contains 'd') := by
  induction l generalizing c r u d with
  | nil => simp [scanFlags]
  | cons ch rest ih =>
    by_cases h1 : ch = 'c'
    · subst h1; rw [scanFlags, if_pos rfl, ih]; simp
    · by_cases h2 : ch = 'r'
      · subst h2; rw [scanFlags, if_neg (by decide), if_pos rfl, ih]; simp
      · by_cases h3 : ch = 'u'
        · subst h3
          rw [scanFlags, if_neg (by decide), if_neg (by decide), if_pos rfl, ih]; simp
        · by_cases h4 : ch = 'd'
          · subst h4
            rw [scanFlags, if_neg (by decide), if_neg (by decide), if_neg (by decide),
              if_pos rfl, ih]
            simp
          · rw [scanFlags, if_neg h1, if_neg h2, if_neg h3, if_neg h4, ih]
            simp [List.contains_cons, decide_eq_false (Ne.symm h1),
              decide_eq_false (Ne.symm h2), decide_eq_false (Ne.symm h3),
              decide_eq_false (Ne.symm h4)]



lemma formatCrudCT_fail (ct : CrudType) (h : goLen ct.crud < 1 ∨ goLen ct.crud > 4) :
    formatCrudCT ct =
      ({ ct with create := false, read := false, update := false, delete := false },
       some "invalid CRUD type string: length must be between 1 and 4") := by
  unfold formatCrudCT
  rw [if_pos h]

lemma formatCrudCT_success (ct : CrudType) (h : ¬(goLen ct.crud < 1 ∨ goLen ct.crud > 4)) :
    formatCrudCT ct =
      (⟨lowerStr ct.crud, (lowerStr ct.crud).data.contains 'c',
        (lowerStr ct.crud).data.contains 'r', (lowerStr ct.crud).data.contains 'u',
        (lowerStr ct.crud).data.contains 'd'⟩, none) := by
  simp only [formatCrudCT, if_neg h, scanFlags_spec, Bool.false_or]

/-- Claim C4: the `FormatCrud` parse of a permission string `s` (from
any prior flag state): a byte length of 0 or more than 4 fails and
forces all four flags false (leaving the raw string unchanged);
otherwise it succeeds, stores the lowercased string, and sets exactly
the flags whose letters occur in `s` case-insensitively, silently
ignoring junk characters; and re-parsing the stored result is a
fixpoint (idempotence). -/
theorem c4_formatCrud_spec (s : String) (c r u d : Bool) :
    ((goLen s = 0 ∨ goLen s > 4) →
      formatCrudCT ⟨s, c, r, u, d⟩ =
        (⟨s, false, false, false, false⟩,
         some "invalid CRUD type string: length must be between 1 and 4")) ∧
    (¬(goLen s = 0 ∨ goLen s > 4) →
      (formatCrudCT ⟨s, c, r, u, d⟩).2 = none ∧
      (formatCrudCT ⟨s, c, r, u, d⟩).1.crud = lowerStr s ∧
      ((formatCrudCT ⟨s, c, r, u, d⟩).1.create = true ↔ 'c' ∈ (lowerStr s).data) ∧
      ((formatCrudCT ⟨s, c, r, u, d⟩).1.read = true ↔ 'r' ∈ (lowerStr s).data) ∧
      ((formatCrudCT ⟨s, c, r, u, d⟩).1.update = true ↔ 'u' ∈ (lowerStr s).data) ∧
      ((formatCrudCT ⟨s, c, r, u, d⟩).1.delete = true ↔ 'd' ∈ (lowerStr s).data)) ∧
    formatCrudCT (formatCrudCT ⟨s, c, r, u, d⟩).1 = formatCrudCT ⟨s, c, r, u, d⟩ := by
  by_cases hb : goLen s = 0 ∨ goLen s > 4
  · have hji : goLen (⟨s, c, r, u, d⟩ : CrudType).crud < 1 ∨
        goLen (⟨s, c, r, u, d⟩ : CrudType).crud > 4 := by
      simpa using by omega
    refine ⟨fun _ => formatCrudCT_fail _ hji, fun hn => absurd hb hn, ?_⟩
    rw [formatCrudCT_fail _ hji]
    exact formatCrudCT_fail _ hji
  · have hji : ¬(goLen (⟨s, c, r, u, d⟩ : CrudType).crud < 1 ∨
        goLen (⟨s, c, r, u, d⟩ : CrudType).crud > 4) := by
      simpa using by omega
    have hsucc := formatCrudCT_success ⟨s, c, r, u, d⟩ hji
    refine ⟨fun hy => absurd hy hb, fun _ => ?_, ?_⟩
    · rw [hsucc]
      refine ⟨rfl, rfl, ?_, ?_, ?_, ?_⟩ <;> simp [List.elem_iff]
    · rw [hsucc]
      have hji2 : ¬(goLen ((⟨lowerStr s, (lowerStr s).data.contains 'c',
          (lowerStr s).data.contains 'r', (lowerStr s).data.contains 'u',
          (lowerStr s).data.contains 'd'⟩ : CrudType)).crud < 1 ∨
          goLen ((⟨lowerStr s, (lowerStr s).data.contains 'c',
          (lowerStr s).data.contains 'r', (lowerStr s).data.contains 'u',
          (lowerStr s).data.contains 'd'⟩ : CrudType)).crud > 4) := by
        simp only [goLen_lowerStr]
        simpa using by omega
      rw [formatCrudCT_success _ hji2]
      simp [lowerStr_lowerStr]



/-- Witness for claim C4 at the concrete inputs `"CrUx"` and `""`. -/
theorem c4_formatCrud_spec_witness :
    ¬((goLen "CrUx" = 0 ∨ goLen "CrUx" > 4)) ∧
    (formatCrudCT ⟨"CrUx", false, false, false, true⟩).2 = none ∧
    (formatCrudCT ⟨"CrUx", false, false, false, true⟩).1.crud = lowerStr "CrUx" ∧
    ((formatCrudCT ⟨"CrUx", false, false, false, true⟩).1.create = true ↔
      'c' ∈ (lowerStr "CrUx").data) ∧
    (goLen "" = 0 ∨ goLen "" > 4) ∧
    formatCrudCT ⟨"", true, true, true, true⟩ =
      (⟨"", false, false, false, false⟩,
       some "invalid CRUD type string: length must be between 1 and 4") := by
  have h := c4_formatCrud_spec "CrUx" false false false true
  have h0 := c4_formatCrud_spec "" true true true true
  refine ⟨by decide, (h.2.1 (by decide)).1, (h.2.1 (by decide)).2.1,
    (h.2.1 (by decide)).2.2.1, by decide, h0.1 (by decide)⟩

/-- Claim C3 (code bug): with a non-empty user map and non-empty
credentials for the unknown username `"bar"`, `authenticate` hits the
nil-pointer dereference `cfg.Users[username].Crud` on security.go line
64 — executed before the `user == nil` check on line 66 — instead of
returning the user-not-found error with a non-nil identity that the
spec (and the test `TestAuthenticate/user not found`) expect. -/
theorem c3_authenticate_unknown_user_panics :
    authenticationNeeded cfgFoo = true ∧
    lookupUsers cfgFoo.users "bar" = none ∧
    authenticate eqVerify cfgFoo "bar" "password" = .panics := by
  decide

/-- Claim C8 counterexample: for the unmapped method `MKCOL` (unmapped
because the switch matches the misspelt literal `MKOL`), the gate writes
no 501 status, returns an unhandled-method error with `ok = true`, and
`handle` still delegates the request to the protocol engine. -/
theorem c8_unmapped_counterexample :
    handleHeadersForAuthorization cfgFoo ⟨"foo", true, some crudAll⟩ "MKCOL" .found =
      .res ⟨some "This method condition hasn\x27t been handled yet", true, none⟩ ∧
    handle eqVerify .found cfgFoo ⟨"MKCOL", "", "", "", true, "foo", "secret"⟩ =
      .delegated (some ⟨some "This method condition hasn\x27t been handled yet", true, none⟩) := by
  decide

/-- Claim C5 counterexample: a write-flag `OpenFile` by a read-only
caller on a missing target with create-logging disabled returns a hard
error, not the claimed nil-file/nil-error soft denial. -/
theorem c5_openfile_counterexample :
    OpenFile osMissing cfgR (some aiR) "f" O_WRONLY ≠ OpenOutcome.ret none none ∧
    OpenFile osMissing cfgR (some aiR) "f" O_WRONLY =
      .ret none (some "the file: /tmp/f does not exist and user u has no write permission to create it") := by
  decide

/-- Claim C2 counterexample: for the jailed user `lj` (subdir `lj`,
full permissions) the name `"/"` resolves to the jail root `/tmp/lj`,
yet `RemoveAll` proceeds to the physical removal with no error and
`Rename` renames the jail root away: the guard only protects the
cleaned `baseDir`. -/
theorem c2_jailroot_counterexample :
    Resolve (some aiLJ) "/" cfgJail = "/tmp/lj" ∧
    jailRoot (some aiLJ) cfgJail = "/tmp/lj" ∧
    RemoveAll osAllOk cfgJail (some aiLJ) "/" = .ret true none ∧
    Rename osAllOk cfgJail (some aiLJ) "/" "/renamed" = .ret true none := by
  decide

/-- Claim C6 counterexample: a reload in which only the permission
string of `alice` is malformed (`"cruddy"`, length 6) does NOT retain
her prior permission set: the live record ends with the malformed raw
string and all four flags false, while `bob` is unaffected. -/
theorem c6_retention_counterexample :
    lookupUsers cfgLive.users "alice" = some ⟨"secret", none, "crud", some crudAll⟩ ∧
    lookupUsers (updateConfig cfgLive cfgBadReload).users "alice" =
      some ⟨"secret", none, "crud", some ⟨"cruddy", false, false, false, false⟩⟩ ∧
    lookupUsers (updateConfig cfgLive cfgBadReload).users "bob" =
      some ⟨"bobsecret", none, "crud", some ⟨"crud", true, true, true, true⟩⟩ := by
  decide





/-- Claim C9: when users are configured and the request is not a CORS
preflight, an authenticated caller whose permission set lacks the read
flag is answered 401 Unauthorized by `handle`, for every HTTP method and
independently of the filesystem oracle — the protocol-method gate and
the filesystem are never consulted. -/
theorem c9_missing_read_unauthorized (verify : String → String → Bool) (stat : StatRes)
    (cfg : Config) (req : Request) (info : AuthInfo) (err : Option String) (ct : CrudType)
    (hpre : ¬(req.method = "OPTIONS" ∧ cfg.cors.origin = req.origin ∧
      req.acrMethod ≠ "" ∧ req.acrHeaders ≠ ""))
    (hneed : authenticationNeeded cfg = true)
    (hba : req.basicAuthOk = true)
    (hauth : authenticate verify cfg req.username req.password = .ok info err)
    (hok : info.authenticated = true)
    (hct : info.crudType = some ct)
    (hread : ct.read = false) :
    handle verify stat cfg req = .unauthorized := by
  unfold handle
  rw [if_neg hpre, if_neg (by simp [hneed]), if_neg (by simp [hba]), hauth]
  simp [hok, hct, hread]

lemma gate_default_of_unmapped (cfg : Config) (ai : AuthInfo) (method : String)
    (stat : StatRes) (hm : method ∉ handledMethods) :
    handleHeadersForAuthorization cfg ai method stat =
      .res ⟨some "This method condition hasn\x27t been handled yet", true, none⟩ := by
  simp only [handledMethods, List.mem_cons, List.not_mem_nil, or_false, not_or] at hm
  obtain ⟨h1, h2, h3, h4, h5, h6, h7, h8, h9, h10, h11, h12⟩ := hm
  unfold handleHeadersForAuthorization
  rw [if_neg h1, if_neg h2, if_neg h3, if_neg h4, if_neg h5, if_neg h6, if_neg h7,
    if_neg h8, if_neg h9, if_neg h10, if_neg h11, if_neg h12]

/-- Claim C8 (amended): a request whose method is not one of the
handled methods is NOT rejected with 501: the gate returns the
unhandled-method error with `ok = true` and no status written, `handle`
merely logs it and delegates the request to the protocol engine (501 is
written only for the mapped methods POST and HEAD). -/
theorem c8_unmapped_method_delegated (verify : String → String → Bool) (stat : StatRes)
    (cfg : Config) (req : Request) (info : AuthInfo) (err : Option String) (ct : CrudType)
    (hm : req.method ∉ handledMethods)
    (hneed : authenticationNeeded cfg = true)
    (hba : req.basicAuthOk = true)
    (hauth : authenticate verify cfg req.username req.password = .ok info err)
    (hok : info.authenticated = true)
    (hct : info.crudType = some ct)
    (hread : ct.read = true) :
    handleHeadersForAuthorization cfg info req.method stat =
      .res ⟨some "This method condition hasn\x27t been handled yet", true, none⟩ ∧
    handle verify stat cfg req =
      .delegated (some ⟨some "This method condition hasn\x27t been handled yet", true, none⟩) := by
  have hopt : req.method ≠ "OPTIONS" := by
    intro h
    exact hm (by rw [h]; simp [handledMethods])
  have hgate := gate_default_of_unmapped cfg info req.method stat hm
  refine ⟨hgate, ?_⟩
  unfold handle
  rw [if_neg (by intro h; exact hopt h.1), if_neg (by simp [hneed]),
    if_neg (by simp [hba]), hauth]
  simp [hok, hct, hread, hgate]

/-- Claim C5 (amended): `OpenFile` with a write or append flag by a
caller lacking the create flag returns nil file and nil error (the soft
denial) provided the path resolves, authorization succeeds, the caller
holds the read flag, and the target exists or create-logging is enabled;
outside those conditions the call returns an explicit error instead. -/
theorem c5_soft_denial (os : OsOracle) (cfg : Config) (ai : Option AuthInfo) (name : String)
    (flag : Nat) (ct : CrudType)
    (hres : Resolve ai name cfg ≠ "")
    (hauth : (authorizationFromContext ai cfg).2 = none)
    (hstat : ¬(os.stat = .errNotExist ∧ (authorizationFromContext ai cfg).1.log.create = false))
    (hct : derefCrud (authorizationFromContext ai cfg).1 (resolveUser ai) = some ct)
    (hread : ct.read = true)
    (hcreate : ct.create = false)
    (hflag : flag &&& (O_WRONLY ||| O_RDWR) ≠ 0) :
    OpenFile os cfg ai name flag = .ret none none := by
  simp only [OpenFile]
  rw [if_neg hres, hauth]
  simp only
  rw [if_neg hstat, hct]
  simp only
  rw [if_neg (by simp [hread]), if_pos ⟨hflag, hcreate⟩]



lemma lookupUsers_cons (p : String × UserInfo) (us : List (String × UserInfo)) (u : String) :
    lookupUsers (p :: us) u = if p.1 = u then some p.2 else lookupUsers us u := by
  unfold lookupUsers
  rw [List.find?_cons]
  by_cases h : p.1 = u
  · simp [h]
  · simp [h]

lemma lookupUsers_filter (us : List (String × UserInfo)) (f : String → Bool) (u : String) :
    lookupUsers (us.filter (fun p => f p.1)) u = if f u then lookupUsers us u else none := by
  induction us with
  | nil => simp [lookupUsers]
  | cons p us ih =>
    simp only [List.filter_cons]
    by_cases hf : f p.1
    · rw [if_pos hf, lookupUsers_cons, lookupUsers_cons]
      by_cases hu : p.1 = u
      · subst hu; rw [if_pos rfl, if_pos rfl, if_pos hf]
      · rw [if_neg hu, if_neg hu, ih]
    · rw [if_neg hf, lookupUsers_cons, ih]
      by_cases hu : p.1 = u
      · subst hu; rw [if_neg hf, if_pos rfl, if_neg hf]
      · rw [if_neg hu]

lemma lookupUsers_append (us vs : List (String × UserInfo)) (u : String) :
    lookupUsers (us ++ vs) u =
      match lookupUsers us u with
      | some v => some v
      | none => lookupUsers vs u := by
  induction us with
  | nil => simp [lookupUsers]
  | cons p us ih =>
    rw [List.cons_append, lookupUsers_cons, lookupUsers_cons]
    by_cases hu : p.1 = u
    · rw [if_pos hu, if_pos hu]
    · rw [if_neg hu, if_neg hu, ih]

lemma lookupUsers_setUser (us : List (String × UserInfo)) (k : String) (v : UserInfo)
    (u : String) :
    lookupUsers (setUser us k v) u =
      if u = k then (lookupUsers us u).map (fun _ => v) else lookupUsers us u := by
  induction us with
  | nil => simp [lookupUsers, setUser]
  | cons p us ih =>
    show lookupUsers ((if p.1 = k then (p.1, v) else p) :: setUser us k v) u = _
    by_cases hpk : p.1 = k
    · rw [if_pos hpk, lookupUsers_cons, lookupUsers_cons]
      by_cases hpu : p.1 = u
      · subst hpu; simp [hpk]
      · rw [if_neg hpu, if_neg hpu, ih]
    · rw [if_neg hpk, lookupUsers_cons, lookupUsers_cons]
      by_cases hpu : p.1 = u
      · subst hpu; simp [hpk]
      · rw [if_neg hpu, if_neg hpu, ih]



lemma foldl_applyUserChange_lookup (l : List (String × UserInfo)) :
    ∀ (acc : List (String × UserInfo)) (u : String), (l.map Prod.fst).Nodup →
    lookupUsers (l.foldl applyUserChange acc) u =
      match l.find? (fun p => p.1 = u) with
      | some pr =>
        (match lookupUsers acc u with
         | none => some pr.2
         | some old => some (mergeUser old pr.2))
      | none => lookupUsers acc u := by
  induction l with
  | nil => intro acc u _; simp
  | cons p l ih =>
    intro acc u hnd
    rw [List.map_cons, List.nodup_cons] at hnd
    obtain ⟨hp, hl⟩ := hnd
    rw [List.foldl_cons, ih _ u hl]
    by_cases hu : p.1 = u
    · subst hu
      have hfind : l.find? (fun q => q.1 = p.1) = none := by
        rw [List.find?_eq_none]
        intro x hx
        simp only [decide_eq_true_eq]
        intro h
        exact hp (h ▸ List.mem_map_of_mem Prod.fst hx)
      rw [hfind]
      simp only [List.find?_cons, decide_True]
      unfold applyUserChange
      cases hacc : lookupUsers acc p.1 with
      | none =>
        rw [lookupUsers_append, hacc]
        simp [lookupUsers_cons, lookupUsers]
      | some old =>
        rw [lookupUsers_setUser, if_pos rfl, hacc, Option.map_some']
    · have hstep : lookupUsers (applyUserChange acc p) u = lookupUsers acc u := by
        unfold applyUserChange
        cases hacc : lookupUsers acc p.1 with
        | none =>
          rw [lookupUsers_append]
          cases hx : lookupUsers acc u with
          | none => simp [lookupUsers_cons, hu, lookupUsers]
          | some w => rfl
        | some old => rw [lookupUsers_setUser, if_neg (fun h => hu h.symm)]
      rw [hstep]
      simp only [List.find?_cons, decide_eq_false hu]

lemma updateConfig_lookup (cfg upd : Config) (hun : (upd.users.map Prod.fst).Nodup)
    (u : String) :
    lookupUsers (updateConfig cfg upd).users u = mergeLookup cfg upd u := by
  show lookupUsers (upd.users.foldl applyUserChange
    (cfg.users.filter (fun p => (lookupUsers upd.users p.1).isSome))) u = _
  rw [foldl_applyUserChange_lookup upd.users _ u hun,
    lookupUsers_filter cfg.users (fun k => (lookupUsers upd.users k).isSome) u]
  unfold mergeLookup
  cases hf : upd.users.find? (fun p => p.1 = u) with
  | none =>
    have hlu : lookupUsers upd.users u = none := by
      unfold lookupUsers; rw [hf]; rfl
    rw [hlu]
    simp
  | some pr =>
    have hlu : lookupUsers upd.users u = some pr.2 := by
      unfold lookupUsers; rw [hf]; rfl
    rw [hlu]
    simp only [Option.isSome_some, if_true]



lemma mergeUser_eq (ou nu : UserInfo) :
    mergeUser ou nu =
      ⟨nu.password, nu.subdir, ou.permissions,
       if ou.crud = none ∧ nu.crud = none then ou.crud
       else some (formatCrudCT ⟨nu.permissions, false, false, false, false⟩).1⟩ := by
  obtain ⟨op, osd, opm, ocr⟩ := ou
  obtain ⟨np, nsd, npm, ncr⟩ := nu
  by_cases h1 : op = np <;> cases osd <;> cases nsd <;> cases ocr <;> cases ncr <;>
    simp_all [mergeUser, ptrNe]

lemma updateConfig_log (cfg upd : Config) :
    (updateConfig cfg upd).log =
      ⟨cfg.log.error, upd.log.create, upd.log.read, upd.log.update, upd.log.delete⟩ := by
  by_cases h1 : cfg.log.create = upd.log.create <;>
  by_cases h2 : cfg.log.read = upd.log.read <;>
  by_cases h3 : cfg.log.update = upd.log.update <;>
  by_cases h4 : cfg.log.delete = upd.log.delete <;>
  simp_all [updateConfig] <;> rw [← h1, ← h2, ← h3, ← h4]

lemma updateConfig_dir (cfg upd : Config) : (updateConfig cfg upd).dir = cfg.dir := rfl

lemma updateConfig_realm (cfg upd : Config) : (updateConfig cfg upd).realm = cfg.realm := rfl

lemma updateConfig_cors (cfg upd : Config) : (updateConfig cfg upd).cors = cfg.cors := rfl



/-- Claim C7: `updateConfig` removes exactly the usernames absent from
the updated configuration, inserts newly present users as-is, and for
each retained user produces the merge of the two records: password and
subdir take the updated values, the permission set is re-parsed from the
updated permission string (unless both crud pointers are nil), and the
remaining field of the record (the `Permissions` string) is unchanged;
the other configuration fields are untouched except the four CRUD
logging toggles, which take the updated values. -/
theorem c7_reload_merge_spec (cfg upd : Config) (hun : (upd.users.map Prod.fst).Nodup) :
    (∀ u, lookupUsers upd.users u = none →
      lookupUsers (updateConfig cfg upd).users u = none) ∧
    (∀ u nu, lookupUsers cfg.users u = none → lookupUsers upd.users u = some nu →
      lookupUsers (updateConfig cfg upd).users u = some nu) ∧
    (∀ u ou nu, lookupUsers cfg.users u = some ou → lookupUsers upd.users u = some nu →
      lookupUsers (updateConfig cfg upd).users u =
        some ⟨nu.password, nu.subdir, ou.permissions,
          if ou.crud = none ∧ nu.crud = none then ou.crud
          else some (formatCrudCT ⟨nu.permissions, false, false, false, false⟩).1⟩) ∧
    (updateConfig cfg upd).dir = cfg.dir ∧
    (updateConfig cfg upd).realm = cfg.realm ∧
    (updateConfig cfg upd).cors = cfg.cors ∧
    (updateConfig cfg upd).log =
      ⟨cfg.log.error, upd.log.create, upd.log.read, upd.log.update, upd.log.delete⟩ := by
  refine ⟨?_, ?_, ?_, rfl, rfl, rfl, updateConfig_log cfg upd⟩
  · intro u hu
    rw [updateConfig_lookup cfg upd hun u]
    unfold mergeLookup
    rw [hu]
  · intro u nu hc hu
    rw [updateConfig_lookup cfg upd hun u]
    unfold mergeLookup
    rw [hu, hc]
  · intro u ou nu hc hu
    rw [updateConfig_lookup cfg upd hun u]
    unfold mergeLookup
    rw [hu, hc]
    dsimp only
    rw [mergeUser_eq]

/-- Claim C6 (amended): a reload whose permission string for one
retained user is malformed (length 0 or more than 4) replaces the permission set of that
user with the malformed raw string and all four flags
false (the prior set is NOT retained), leaves every other username with
exactly the normal merge result, and the store does not crash (the
parse error is only logged). -/
theorem c6_bad_reload_clears_flags (cfg upd : Config) (u : String) (ou nu : UserInfo)
    (hun : (upd.users.map Prod.fst).Nodup)
    (hou : lookupUsers cfg.users u = some ou)
    (hnu : lookupUsers upd.users u = some nu)
    (hbad : goLen nu.permissions = 0 ∨ goLen nu.permissions > 4)
    (hptr : ¬(ou.crud = none ∧ nu.crud = none)) :
    lookupUsers (updateConfig cfg upd).users u =
      some ⟨nu.password, nu.subdir, ou.permissions,
        some ⟨nu.permissions, false, false, false, false⟩⟩ ∧
    (∀ v, v ≠ u → lookupUsers (updateConfig cfg upd).users v = mergeLookup cfg upd v) := by
  refine ⟨?_, fun v _ => updateConfig_lookup cfg upd hun v⟩
  rw [updateConfig_lookup cfg upd hun u]
  unfold mergeLookup
  rw [hnu, hou]
  dsimp only
  rw [mergeUser_eq, if_neg hptr,
    formatCrudCT_fail ⟨nu.permissions, false, false, false, false⟩ (by simpa using by omega)]



/-- Witness for claim C9: the user `w` with permissions `"cud"`. -/
theorem c9_witness :
    handle eqVerify .found cfgCUD ⟨"PUT", "", "", "", true, "w", "secret"⟩ = .unauthorized :=
  c9_missing_read_unauthorized eqVerify .found cfgCUD ⟨"PUT", "", "", "", true, "w", "secret"⟩
    ⟨"w", true, some crudCUD⟩ none crudCUD (by decide) (by decide) (by decide) (by decide)
    (by decide) (by decide) (by decide)

/-- Witness for the amended claim C8 at the method `MKCOL`. -/
theorem c8_witness :
    handle eqVerify .found cfgFoo ⟨"MKCOL", "", "", "", true, "foo", "secret"⟩ =
      .delegated (some ⟨some "This method condition hasn\x27t been handled yet", true, none⟩) :=
  (c8_unmapped_method_delegated eqVerify .found cfgFoo ⟨"MKCOL", "", "", "", true, "foo", "secret"⟩
    ⟨"foo", true, some crudAll⟩ none crudAll (by decide) (by decide) (by decide) (by decide)
    (by decide) (by decide) (by decide)).2

/-- Witness for the amended claim C5: read-only caller, existing
target. -/
theorem c5_witness :
    OpenFile osAllOk cfgR (some aiR) "f" O_WRONLY = .ret none none :=
  c5_soft_denial osAllOk cfgR (some aiR) "f" O_WRONLY crudRead (by decide) (by decide)
    (by decide) (by decide) (by decide) (by decide) (by decide)

/-- Witness for the amended claim C6 at the malformed reload of
`alice`. -/
theorem c6_witness :
    lookupUsers (updateConfig cfgLive cfgBadReload).users "alice" =
      some ⟨"secret", none, "crud", some ⟨"cruddy", false, false, false, false⟩⟩ := by
  have h := c6_bad_reload_clears_flags cfgLive cfgBadReload "alice" userFoo
    ⟨"secret", none, "cruddy", none⟩ (by decide) (by decide) (by decide) (by decide) (by decide)
  exact h.1

/-- Witness for claim C7: the reload that removes `bob`. -/
theorem c7_witness :
    lookupUsers (updateConfig cfgLive cfgDropBob).users "bob" = none ∧
    lookupUsers (updateConfig cfgLive cfgDropBob).users "alice" =
      some ⟨"secret", none, "crud", some ⟨"crud", true, true, true, true⟩⟩ := by
  have h := c7_reload_merge_spec cfgLive cfgDropBob (by decide)
  refine ⟨h.1 "bob" (by decide), ?_⟩
  have h3 := h.2.2.1 "alice" userFoo ⟨"secret", none, "crud", none⟩ (by decide) (by decide)
  rw [h3]
  decide



lemma splitSlash_ne_nil (cs : List Char) : splitSlash cs ≠ [] := by
  cases cs with
  | nil => simp [splitSlash]
  | cons c rest =>
    unfold splitSlash
    cases splitSlash rest with
    | nil => simp
    | cons s ss =>
      by_cases h : c = '/' <;> simp [h]

lemma splitSlash_slash_cons (ys : List Char) : splitSlash ('/' :: ys) = [] :: splitSlash ys := by
  cases h : splitSlash ys with
  | nil => exact absurd h (splitSlash_ne_nil ys)
  | cons s ss =>
    unfold splitSlash
    rw [h]
    simp

lemma splitSlash_cons_of_ne (c : Char) (ys : List Char) (hc : c ≠ '/') (s : List Char)
    (ss : List (List Char)) (h : splitSlash ys = s :: ss) :
    splitSlash (c :: ys) = (c :: s) :: ss := by
  unfold splitSlash
  rw [h]
  simp [hc]

lemma mem_splitSlash_no_slash (cs : List Char) : ∀ s ∈ splitSlash cs, '/' ∉ s := by
  induction cs with
  | nil => intro s hs; simp [splitSlash] at hs; simp [hs]
  | cons c rest ih =>
    intro s hs
    by_cases hc : c = '/'
    · subst hc
      rw [splitSlash_slash_cons, List.mem_cons] at hs
      rcases hs with rfl | hs
      · simp
      · exact ih s hs
    · cases h : splitSlash rest with
      | nil => exact absurd h (splitSlash_ne_nil rest)
      | cons t ts =>
        rw [splitSlash_cons_of_ne c rest hc t ts h, List.mem_cons] at hs
        rcases hs with rfl | hs
        · intro hmem
          rw [List.mem_cons] at hmem
          rcases hmem with he | hm
          · exact hc he.symm
          · exact ih t (h ▸ List.mem_cons_self t ts) hm
        · exact ih s (h ▸ List.mem_cons_of_mem t hs)

lemma splitSlash_append (xs ys : List Char) :
    splitSlash (xs ++ '/' :: ys) = splitSlash xs ++ splitSlash ys := by
  induction xs with
  | nil => rw [List.nil_append, splitSlash_slash_cons]; rfl
  | cons c xs ih =>
    by_cases hc : c = '/'
    · subst hc
      rw [List.cons_append, splitSlash_slash_cons, splitSlash_slash_cons, ih, List.cons_append]
    · cases h : splitSlash xs with
      | nil => exact absurd h (splitSlash_ne_nil xs)
      | cons s ss =>
        have h2 : splitSlash (xs ++ '/' :: ys) = s :: (ss ++ splitSlash ys) := by
          rw [ih, h]; rfl
        rw [List.cons_append, splitSlash_cons_of_ne c _ hc s (ss ++ splitSlash ys) h2,
          splitSlash_cons_of_ne c xs hc s ss h]
        rfl

lemma splitSlash_of_no_slash (s : List Char) (h : '/' ∉ s) : splitSlash s = [s] := by
  induction s with
  | nil => rfl
  | cons c cs ih =>
    have hc : c ≠ '/' := fun he => h (he ▸ List.mem_cons_self c cs)
    have hcs : '/' ∉ cs := fun hm => h (List.mem_cons_of_mem c hm)
    exact splitSlash_cons_of_ne c cs hc cs [] (ih hcs)

lemma splitSlash_joinSegs (out : List (List Char)) (hne : out ≠ [])
    (h : ∀ s ∈ out, '/' ∉ s) : splitSlash (joinSegs out) = out := by
  induction out with
  | nil => exact absurd rfl hne
  | cons s rest ih =>
    cases rest with
    | nil => exact splitSlash_of_no_slash s (h s (List.mem_cons_self s []))
    | cons t ts =>
      show splitSlash (s ++ '/' :: joinSegs (t :: ts)) = s :: t :: ts
      rw [splitSlash_append, splitSlash_of_no_slash s (h s (List.mem_cons_self s _)),
        ih (by simp) (fun q hq => h q (List.mem_cons_of_mem s hq))]
      rfl



lemma cleanStep_push (rooted : Bool) (st : List (List Char)) (seg : List Char)
    (h1 : seg ≠ []) (h2 : seg ≠ ['.']) (h3 : seg ≠ ['.', '.']) :
    cleanStep rooted st seg = seg :: st := by
  unfold cleanStep
  rw [if_neg (by tauto), if_neg h3]

lemma cleanStep_skip (rooted : Bool) (st : List (List Char)) (seg : List Char)
    (h : seg = [] ∨ seg = ['.']) : cleanStep rooted st seg = st := by
  unfold cleanStep
  rw [if_pos h]

lemma foldl_cleanStep_push (rooted : Bool) (l : List (List Char))
    (h : ∀ s ∈ l, s ≠ [] ∧ s ≠ ['.'] ∧ s ≠ ['.', '.']) :
    ∀ st, l.foldl (cleanStep rooted) st = l.reverse ++ st := by
  induction l with
  | nil => intro st; simp
  | cons seg l ih =>
    intro st
    obtain ⟨h1, h2, h3⟩ := h seg (List.mem_cons_self seg l)
    rw [List.foldl_cons, cleanStep_push rooted st seg h1 h2 h3,
      ih (fun q hq => h q (List.mem_cons_of_mem seg hq)) (seg :: st)]
    simp

lemma foldl_cleanStep_dots (l : List (List Char)) (hl : ∀ s ∈ l, s = ['.', '.']) :
    ∀ st, (∀ s ∈ st, s = ['.', '.']) → l.foldl (cleanStep false) st = l.reverse ++ st := by
  induction l with
  | nil => intro st _; simp
  | cons seg l ih =>
    intro st hst
    have hseg := hl seg (List.mem_cons_self seg l)
    have hstep : cleanStep false st seg = seg :: st := by
      rw [hseg]
      cases st with
      | nil => rfl
      | cons top rest =>
        rw [hst top (List.mem_cons_self top rest)]
        rfl
    rw [List.foldl_cons, hstep,
      ih (fun q hq => hl q (List.mem_cons_of_mem seg hq)) (seg :: st)
        (by
          intro q hq
          rw [List.mem_cons] at hq
          rcases hq with rfl | hq
          · exact hseg
          · exact hst q hq)]
    simp



lemma goodStack_nil (rooted : Bool) : goodStack rooted [] :=
  ⟨[], [], rfl, by simp, by simp, fun _ => rfl⟩

lemma goodStack_cleanStep (rooted : Bool) (st : List (List Char)) (seg : List Char)
    (hseg : '/' ∉ seg) (h : goodStack rooted st) :
    goodStack rooted (cleanStep rooted st seg) := by
  obtain ⟨ps, ds, hst, hps, hds, hr⟩ := h
  unfold cleanStep
  by_cases h1 : seg = [] ∨ seg = ['.']
  · rw [if_pos h1]
    exact ⟨ps, ds, hst, hps, hds, hr⟩
  · rw [if_neg h1]
    by_cases h2 : seg = ['.', '.']
    · rw [if_pos h2]
      subst hst
      cases hps' : ps with
      | nil =>
        subst hps'
        cases hds' : ds with
        | nil =>
          subst hds'
          cases hrt : rooted with
          | false => exact ⟨[], [['.', '.']], by simp [h2], by simp, by simp [h2], by simp⟩
          | true => exact ⟨[], [], by simp, by simp, by simp, fun _ => rfl⟩
        | cons d ds' =>
          subst hds'
          have hd := hds d (List.mem_cons_self d ds')
          simp only [List.nil_append]
          rw [hd]
          simp only [if_pos rfl]
          cases hrt : rooted with
          | true => exact absurd (hr hrt) (by simp)
          | false =>
            refine ⟨[], seg :: ['.', '.'] :: ds', by simp, by simp, ?_, by simp [hrt]⟩
            intro q hq
            rw [List.mem_cons, List.mem_cons] at hq
            rcases hq with rfl | rfl | hq
            · exact h2
            · rfl
            · exact hds q (List.mem_cons_of_mem d hq)
      | cons p ps' =>
        subst hps'
        have hp := hps p (List.mem_cons_self p ps')
        simp only [List.cons_append]
        rw [if_neg hp.2.2.1]
        exact ⟨ps', ds, rfl, fun q hq => hps q (List.mem_cons_of_mem p hq), hds, hr⟩
    · rw [if_neg h2]
      refine ⟨seg :: ps, ds, by rw [hst, List.cons_append], ?_, hds, hr⟩
      intro q hq
      rw [List.mem_cons] at hq
      rcases hq with rfl | hq
      · exact ⟨fun he => h1 (Or.inl he), fun he => h1 (Or.inr he), h2, hseg⟩
      · exact hps q hq

lemma goodStack_foldl (rooted : Bool) (l : List (List Char)) (hl : ∀ s ∈ l, '/' ∉ s) :
    ∀ st, goodStack rooted st → goodStack rooted (l.foldl (cleanStep rooted) st) := by
  induction l with
  | nil => intro st h; exact h
  | cons seg l ih =>
    intro st h
    rw [List.foldl_cons]
    exact ih (fun q hq => hl q (List.mem_cons_of_mem seg hq)) _
      (goodStack_cleanStep rooted st seg (hl seg (List.mem_cons_self seg l)) h)



lemma cleanChars_of_empty (cs : List Char) (h : pathSegs cs = []) :
    cleanChars cs = if isRooted cs then ['/'] else ['.'] := by
  have h' : cleanSegs (isRooted cs) (splitSlash cs) = [] := h
  simp only [cleanChars, h']

lemma cleanChars_of_ne (cs : List Char) (h : pathSegs cs ≠ []) :
    cleanChars cs = (if isRooted cs then ['/'] else []) ++ joinSegs (pathSegs cs) := by
  cases hout : pathSegs cs with
  | nil => exact absurd hout h
  | cons o os =>
    have h' : cleanSegs (isRooted cs) (splitSlash cs) = o :: os := hout
    simp only [cleanChars, h']

lemma pathSegs_decomp (cs : List Char) :
    ∃ ps ds, (splitSlash cs).foldl (cleanStep (isRooted cs)) [] = ps ++ ds ∧
      pathSegs cs = ds.reverse ++ ps.reverse ∧
      (∀ s ∈ ps, plainSeg s) ∧ (∀ s ∈ ds, s = ['.', '.']) ∧
      (isRooted cs = true → ds = []) := by
  obtain ⟨ps, ds, hst, hps, hds, hr⟩ := goodStack_foldl (isRooted cs) (splitSlash cs)
    (mem_splitSlash_no_slash cs) [] (goodStack_nil _)
  refine ⟨ps, ds, hst, ?_, hps, hds, hr⟩
  unfold pathSegs cleanSegs
  rw [hst, List.reverse_append]

lemma pathSegs_elems (cs : List Char) : ∀ s ∈ pathSegs cs, s ≠ [] ∧ '/' ∉ s := by
  obtain ⟨ps, ds, _, hpath, hps, hds, _⟩ := pathSegs_decomp cs
  intro s hs
  rw [hpath, List.mem_append] at hs
  rcases hs with hs | hs
  · have := hds s (List.mem_reverse.mp hs)
    subst this
    exact ⟨by simp, by simp⟩
  · have := hps s (List.mem_reverse.mp hs)
    exact ⟨this.1, this.2.2.2⟩

lemma pathSegs_rooted_plain (cs : List Char) (hroot : isRooted cs = true) :
    ∀ s ∈ pathSegs cs, s ≠ [] ∧ s ≠ ['.'] ∧ s ≠ ['.', '.'] := by
  obtain ⟨ps, ds, _, hpath, hps, hds, hr⟩ := pathSegs_decomp cs
  intro s hs
  rw [hpath, hr hroot] at hs
  simp only [List.reverse_nil, List.nil_append] at hs
  have := hps s (List.mem_reverse.mp hs)
  exact ⟨this.1, this.2.1, this.2.2.1⟩

lemma isRooted_cons_ne (c : Char) (l : List Char) (hc : c ≠ '/') :
    isRooted (c :: l) = false := by
  unfold isRooted
  split
  · next heq => simp_all
  · rfl

lemma isRooted_append (A x : List Char) (hA : A ≠ []) : isRooted (A ++ x) = isRooted A := by
  cases A with
  | nil => exact absurd rfl hA
  | cons c l =>
    by_cases hc : c = '/'
    · subst hc; rfl
    · rw [List.cons_append, isRooted_cons_ne c _ hc, isRooted_cons_ne c _ hc]

lemma isRooted_joinSegs (out : List (List Char)) (hne : out ≠ [])
    (h : ∀ s ∈ out, s ≠ [] ∧ '/' ∉ s) : isRooted (joinSegs out) = false := by
  cases out with
  | nil => exact absurd rfl hne
  | cons s rest =>
    have hs := h s (List.mem_cons_self s rest)
    cases hsc : s with
    | nil => exact absurd hsc hs.1
    | cons c crest =>
      have hc : c ≠ '/' := fun he => hs.2 (by rw [hsc, he]; exact List.mem_cons_self _ _)
      cases rest with
      | nil => exact isRooted_cons_ne c crest hc
      | cons t ts => exact isRooted_cons_ne c (crest ++ '/' :: joinSegs (t :: ts)) hc



lemma cleanChars_segs (cs : List Char) :
    isRooted (cleanChars cs) = isRooted cs ∧ pathSegs (cleanChars cs) = pathSegs cs := by
  by_cases hempty : pathSegs cs = []
  · rw [cleanChars_of_empty cs hempty]
    cases hrt : isRooted cs with
    | true =>
      rw [if_pos rfl]
      exact ⟨rfl, by rw [hempty]; decide⟩
    | false =>
      rw [if_neg (by simp)]
      exact ⟨rfl, by rw [hempty]; decide⟩
  · rw [cleanChars_of_ne cs hempty]
    have helems : ∀ s ∈ pathSegs cs, s ≠ [] ∧ '/' ∉ s := pathSegs_elems cs
    have hjoin : splitSlash (joinSegs (pathSegs cs)) = pathSegs cs :=
      splitSlash_joinSegs _ hempty (fun s hs => (helems s hs).2)
    obtain ⟨ps, ds, hst, hpath, hps, hds, hr⟩ := pathSegs_decomp cs
    cases hrt : isRooted cs with
    | true =>
      rw [if_pos rfl]
      constructor
      · rfl
      · show cleanSegs (isRooted ('/' :: joinSegs (pathSegs cs)))
          (splitSlash ('/' :: joinSegs (pathSegs cs))) = pathSegs cs
        rw [show isRooted ('/' :: joinSegs (pathSegs cs)) = true from rfl,
          splitSlash_slash_cons, hjoin]
        unfold cleanSegs
        rw [List.foldl_cons, cleanStep_skip true [] [] (Or.inl rfl),
          foldl_cleanStep_push true (pathSegs cs) (pathSegs_rooted_plain cs hrt) []]
        simp
    | false =>
      rw [if_neg (by simp)]
      rw [List.nil_append]
      have hrooted2 : isRooted (joinSegs (pathSegs cs)) = false :=
        isRooted_joinSegs _ hempty helems
      have hfold1 : List.foldl (cleanStep false) [] ds.reverse = ds := by
        rw [foldl_cleanStep_dots ds.reverse (fun q hq => hds q (List.mem_reverse.mp hq)) []
          (by simp)]
        simp
      have hfold2 : List.foldl (cleanStep false) ds ps.reverse = ps ++ ds := by
        rw [foldl_cleanStep_push false ps.reverse (fun q hq => by
            have := hps q (List.mem_reverse.mp hq)
            exact ⟨this.1, this.2.1, this.2.2.1⟩) ds]
        simp
      refine ⟨hrooted2, ?_⟩
      have pathSegs_def : ∀ xs : List Char,
          pathSegs xs = (List.foldl (cleanStep (isRooted xs)) [] (splitSlash xs)).reverse :=
        fun _ => rfl
      calc pathSegs (joinSegs (pathSegs cs))
          = (List.foldl (cleanStep false) [] (splitSlash (joinSegs (pathSegs cs)))).reverse := by
            rw [pathSegs_def (joinSegs (pathSegs cs)), hrooted2]
        _ = (List.foldl (cleanStep false) [] (ds.reverse ++ ps.reverse)).reverse := by
            rw [hjoin, hpath]
        _ = (ps ++ ds).reverse := by rw [List.foldl_append, hfold1, hfold2]
        _ = ds.reverse ++ ps.reverse := by rw [List.reverse_append]
        _ = pathSegs cs := hpath.symm

lemma isRooted_cleanChars (cs : List Char) : isRooted (cleanChars cs) = isRooted cs :=
  (cleanChars_segs cs).1

lemma pathSegs_cleanChars (cs : List Char) : pathSegs (cleanChars cs) = pathSegs cs :=
  (cleanChars_segs cs).2

lemma cleanChars_ne_nil (cs : List Char) : cleanChars cs ≠ [] := by
  by_cases hempty : pathSegs cs = []
  · rw [cleanChars_of_empty cs hempty]
    cases isRooted cs <;> simp
  · rw [cleanChars_of_ne cs hempty]
    intro hcon
    rw [List.append_eq_nil] at hcon
    cases hout : pathSegs cs with
    | nil => exact hempty hout
    | cons o os =>
      have ho := (pathSegs_elems cs o (hout ▸ List.mem_cons_self o os)).1
      cases os with
      | nil =>
        rw [hout] at hcon
        exact ho (by simpa using hcon.2)
      | cons t ts =>
        rw [hout] at hcon
        have : joinSegs (o :: t :: ts) = o ++ '/' :: joinSegs (t :: ts) := rfl
        rw [this] at hcon
        simp at hcon



lemma pathSegs_def (xs : List Char) :
    pathSegs xs = ((splitSlash xs).foldl (cleanStep (isRooted xs)) []).reverse := rfl

lemma cleanChars_congr (x y : List Char) (h1 : isRooted x = isRooted y)
    (h2 : (splitSlash x).foldl (cleanStep (isRooted x)) [] =
      (splitSlash y).foldl (cleanStep (isRooted y)) []) :
    cleanChars x = cleanChars y := by
  simp only [cleanChars, cleanSegs]
  rw [h2, h1]

lemma inside_join (A nm : List Char) (hA : A ≠ []) :
    insideOf (String.mk (cleanChars A))
      (String.mk (cleanChars (A ++ '/' :: cleanChars ('/' :: nm)))) := by
  have hrootnm : isRooted ('/' :: nm) = true := rfl
  by_cases ho : pathSegs ('/' :: nm) = []
  · have hc : cleanChars ('/' :: nm) = ['/'] := by
      rw [cleanChars_of_empty _ ho, hrootnm, if_pos rfl]
    rw [hc]
    have heq : cleanChars (A ++ '/' :: ['/']) = cleanChars A := by
      apply cleanChars_congr
      · exact isRooted_append A _ hA
      · rw [isRooted_append A _ hA, splitSlash_append,
          show splitSlash ['/'] = [[], []] from rfl, List.foldl_append]
        rfl
    rw [heq]
    exact ⟨rfl, List.prefix_refl _⟩
  · have helems : ∀ s ∈ pathSegs ('/' :: nm), s ≠ [] ∧ '/' ∉ s := pathSegs_elems _
    have hplain := pathSegs_rooted_plain ('/' :: nm) hrootnm
    have hc : cleanChars ('/' :: nm) = '/' :: joinSegs (pathSegs ('/' :: nm)) := by
      rw [cleanChars_of_ne _ ho, hrootnm, if_pos rfl]
      rfl
    rw [hc]
    set o := pathSegs ('/' :: nm) with ho2
    have hjoin : splitSlash (joinSegs o) = o :=
      splitSlash_joinSegs o ho (fun s hs => (helems s hs).2)
    have hr : isRooted (A ++ '/' :: '/' :: joinSegs o) = isRooted A := isRooted_append A _ hA
    have hsplit : splitSlash (A ++ '/' :: '/' :: joinSegs o) = splitSlash A ++ [] :: o := by
      rw [splitSlash_append, splitSlash_slash_cons, hjoin]
    have hfold : List.foldl (cleanStep (isRooted A)) [] (splitSlash A ++ [] :: o)
        = o.reverse ++ List.foldl (cleanStep (isRooted A)) [] (splitSlash A) := by
      rw [List.foldl_append, List.foldl_cons, cleanStep_skip _ _ [] (Or.inl rfl),
        foldl_cleanStep_push (isRooted A) o hplain]
    have hps : pathSegs (A ++ '/' :: '/' :: joinSegs o) = pathSegs A ++ o := by
      rw [pathSegs_def (A ++ '/' :: '/' :: joinSegs o), hr, hsplit, hfold,
        List.reverse_append, List.reverse_reverse, pathSegs_def A]
    constructor
    · show isRooted (cleanChars A) = isRooted (cleanChars (A ++ '/' :: '/' :: joinSegs o))
      rw [isRooted_cleanChars, isRooted_cleanChars, hr]
    · show pathSegs (cleanChars A) <+: pathSegs (cleanChars (A ++ '/' :: '/' :: joinSegs o))
      rw [pathSegs_cleanChars, pathSegs_cleanChars, hps]
      exact List.prefix_append _ _



lemma goJoin_two (a c : List Char) (ha : a ≠ []) :
    goJoin [a, c] = cleanChars (a ++ '/' :: c) := by
  unfold goJoin
  rw [if_neg ha]
  rfl

lemma goJoin_three (a b c : List Char) (ha : a ≠ []) :
    goJoin [a, b, c] = cleanChars ((a ++ '/' :: b) ++ '/' :: c) := by
  unfold goJoin
  rw [if_neg ha]
  have : joinSegs [a, b, c] = (a ++ '/' :: b) ++ '/' :: c := by
    show a ++ '/' :: (b ++ '/' :: c) = (a ++ '/' :: b) ++ '/' :: c
    simp
  rw [this]

lemma inside_two (d nm : List Char) (hd : d ≠ []) :
    insideOf (String.mk (cleanChars d))
      (String.mk (goJoin [d, cleanChars ('/' :: nm)])) := by
  rw [goJoin_two d _ hd]
  exact inside_join d nm hd

lemma inside_three (d sd nm : List Char) (hd : d ≠ []) :
    insideOf (String.mk (goJoin [d, sd]))
      (String.mk (goJoin [d, sd, cleanChars ('/' :: nm)])) := by
  rw [goJoin_two d sd hd, goJoin_three d sd _ hd]
  exact inside_join (d ++ '/' :: sd) nm (by simp [hd])

lemma resolve_confined_aux (cfg : Config) (ai : Option AuthInfo) (name : String) :
    Resolve ai name cfg = "" ∨ insideOf (jailRoot ai cfg) (Resolve ai name cfg) := by
  by_cases hnull : ((pathSeparator != '/' && name.data.contains pathSeparator)
      || name.data.contains nullChar) = true
  · left
    unfold Resolve
    rw [if_pos hnull]
  · right
    simp only [Resolve, jailRoot]
    rw [if_neg hnull]
    have hd : (if cfg.dir = "" then "." else cfg.dir).data ≠ [] := by
      by_cases h : cfg.dir = ""
      · rw [if_pos h]; decide
      · rw [if_neg h]
        intro hc
        apply h
        cases hdir : cfg.dir with
        | mk l => rw [hdir] at hc; simp at hc; rw [hc]
    cases ai with
    | none => exact inside_two _ name.data hd
    | some info =>
      dsimp only
      by_cases hauth : info.authenticated = true
      · rw [if_pos hauth, if_pos hauth]
        cases lookupUsers cfg.users info.username with
        | none => exact inside_two _ name.data hd
        | some ui =>
          dsimp only
          cases ui.subdir with
          | none => exact inside_two _ name.data hd
          | some sd => exact inside_three _ sd.data name.data hd
      · rw [if_neg hauth, if_neg hauth]
        exact inside_two _ name.data hd



/-- Claim C1: for every configuration, caller and virtual path name,
`Resolve` returns the empty sentinel or a physical path lexically inside
the jail root (`baseDir`, or `baseDir/jailSubdir` for an authenticated
caller with a configured subdirectory), even for names with arbitrarily
many `..` segments; in particular with base dir `/tmp` and no jail,
`../../../x` resolves to `/tmp/x` and the inputs `""` and `"."` resolve
to the jail root itself. -/
theorem c1_resolve_confined :
    (∀ (cfg : Config) (ai : Option AuthInfo) (name : String),
      Resolve ai name cfg = "" ∨ insideOf (jailRoot ai cfg) (Resolve ai name cfg)) ∧
    Resolve none "../../../x" cfgNoUsers = "/tmp/x" ∧
    Resolve none "" cfgNoUsers = "/tmp" ∧
    Resolve none "." cfgNoUsers = "/tmp" ∧
    jailRoot none cfgNoUsers = "/tmp" :=
  ⟨resolve_confined_aux, by decide, by decide, by decide, by decide⟩

/-- Claim C2 (amended): the root guards of `RemoveAll` and `Rename`
protect exactly `filepath.Clean(baseDir)`: whenever a name resolves to
it, `RemoveAll` returns an error without removing anything and `Rename`
returns an error with the root as either endpoint. For a jailed user the
jail root `baseDir/jailSubdir` is NOT protected (see the
counterexample). -/
theorem c2_root_guard_basedir_only (os : OsOracle) (cfg : Config) (ai : Option AuthInfo)
    (name other : String)
    (hroot : Resolve ai name cfg = String.mk (cleanChars cfg.dir.data))
    (hother : Resolve ai other cfg ≠ "") :
    RemoveAll os cfg ai name =
      .ret false (some "removing the virtual root directory is prohibited") ∧
    Rename os cfg ai name other = .ret false (some "invalid argument") ∧
    Rename os cfg ai other name = .ret false (some "invalid argument") := by
  have hne : String.mk (cleanChars cfg.dir.data) ≠ "" := by
    intro h
    have h2 : cleanChars cfg.dir.data = [] := by
      have := congrArg String.data h
      simpa using this
    exact cleanChars_ne_nil _ h2
  refine ⟨?_, ?_, ?_⟩
  · simp only [RemoveAll]
    rw [hroot, if_neg hne, if_pos rfl]
  · simp only [Rename]
    rw [hroot, if_neg hne, if_neg hother, if_pos (Or.inl rfl)]
  · simp only [Rename]
    rw [if_neg hother, hroot, if_neg hne, if_pos (Or.inr rfl)]

/-- Witness for the amended claim C2 at the unjailed user `foo`. -/
theorem c2_witness :
    RemoveAll osAllOk cfgFoo (some ⟨"foo", true, some crudAll⟩) "/" =
      .ret false (some "removing the virtual root directory is prohibited") ∧
    Rename osAllOk cfgFoo (some ⟨"foo", true, some crudAll⟩) "/" "/x" =
      .ret false (some "invalid argument") ∧
    Rename osAllOk cfgFoo (some ⟨"foo", true, some crudAll⟩) "/x" "/" =
      .ret false (some "invalid argument") :=
  c2_root_guard_basedir_only osAllOk cfgFoo (some ⟨"foo", true, some crudAll⟩) "/" "/x"
    (by decide) (by decide)

end David
